import Mathlib

/-!
Formal model of the `juul` scripting-language implementation: the lexer
(`src/lexer.rs`), the recursive-descent parser (`src/parser.rs`) and the
tree-walking interpreter (`src/main.rs`), together with theorems checking
the natural-language specification against this model.

Modelling conventions:
* Rust `f64` number payloads are modelled by `Rat`; no verified property
  depends on floating-point rounding.
* Rust iterator loops (`Peekable`) become explicit fuel-indexed recursion;
  where the Rust loop always makes progress the wrapper supplies enough
  fuel and the fuel-exhausted arm is unreachable, while for the parser and
  the interpreter — whose Rust originals can genuinely diverge — running
  out of fuel for every fuel value models nontermination (result `none`).
* Rust `HashMap` becomes an association list with insert-or-overwrite;
  only `insert`, `get`/`contains_key` semantics are used by the program.
* `println!`/`eprintln!` become accumulated lists of stdout/stderr lines.
-/

namespace Juul

/-- Tokens produced by the lexer (`lexer.rs`, `enum Token`).  The `f64`
payload of a number literal is modelled by `Rat`. -/
inductive Token where
  | Print
  | If
  | Else
  | Function
  | Identifier (name : String)
  | StringLiteral (value : String)
  | NumberLiteral (value : Rat)
  | Assign
  | Plus
  | Minus
  | Star
  | Slash
  | EqualEqual
  | NotEqual
  | LessThan
  | GreaterThan
  | LessEqual
  | GreaterEqual
  | Bang
  | Comma
  | Semicolon
  | LeftParen
  | RightParen
  | LeftBrace
  | RightBrace
  | EOF
deriving DecidableEq

/-- Numeric value of a run of decimal digits (most significant first). -/
def digitsToNat (cs : List Char) : Nat :=
  cs.foldl (fun a c => a * 10 + (c.toNat - 48)) 0

/-- Models Rust `str::parse::<f64>` restricted to the strings
`collect_number` can produce (runs of decimal digits and `.`): the parse
succeeds iff the run contains at most one dot and at least one digit, and
the value is the exact rational the decimal text denotes.  A run with two
or more dots (for example `1.2.3`) fails, as does a bare `.` or an empty
run. -/
def parseNumeral (cs : List Char) : Option Rat :=
  if cs.count '.' ≤ 1 ∧ cs.any Char.isDigit then
    let ip := cs.takeWhile (· ≠ '.')
    let fp := (cs.dropWhile (· ≠ '.')).drop 1
    if fp.length = 0 then some (digitsToNat ip : Rat)
    else some ((digitsToNat ip : Rat) + (digitsToNat fp : Rat) / (10 : Rat) ^ fp.length)
  else none

/-- `collect_identifier` (`lexer.rs` 153-164): maximal run of
alphanumeric/underscore characters; returns the collected text and the
remaining input. -/
def collectIdentifier (cs : List Char) : String × List Char :=
  (String.mk (cs.takeWhile fun c => c.isAlphanum || c = '_'),
   cs.dropWhile fun c => c.isAlphanum || c = '_')

/-- `collect_number` (`lexer.rs` 166-177): maximal run of digits and `.`;
the run is parsed as a number, with `unwrap_or(0.0)` as the fallback when
the parse fails. -/
def collectNumber (cs : List Char) : Rat × List Char :=
  ((parseNumeral (cs.takeWhile fun c => c.isDigit || c = '.')).getD 0,
   cs.dropWhile fun c => c.isDigit || c = '.')

/-- `collect_string_literal` (`lexer.rs` 179-191): characters up to the
closing `"` (which is consumed); reaching end of input without a closing
quote keeps whatever was collected. -/
def collectStringLiteral (cs : List Char) : String × List Char :=
  (String.mk (cs.takeWhile (· ≠ '"')), (cs.dropWhile (· ≠ '"')).drop 1)

/-- Keyword classification of a collected identifier (`lexer.rs` 46-52). -/
def keywordOrIdentifier (s : String) : Token :=
  if s = "print" then Token.Print
  else if s = "if" then Token.If
  else if s = "else" then Token.Else
  else if s = "func" then Token.Function
  else Token.Identifier s

/-- The scanning loop of `lex` (`lexer.rs` 34-151).  The fuel counts loop
iterations; every iteration of the Rust loop consumes at least one input
character, so `lex` supplies `length + 1` fuel, which always suffices (the
fuel-exhausted arm, which emits the trailing end-marker like the normal
exit, is unreachable from `lex`).  Unicode `is_whitespace`/`is_alphabetic`
are modelled by their ASCII counterparts. -/
def lexChars : Nat → List Char → List Token
  | 0, _ => [Token.EOF]
  | _ + 1, [] => [Token.EOF]
  | fuel + 1, c :: cs =>
    if c.isWhitespace then lexChars fuel cs
    else if c.isAlpha || c = '_' then
      let p := collectIdentifier (c :: cs)
      keywordOrIdentifier p.1 :: lexChars fuel p.2
    else if c.isDigit then
      let p := collectNumber (c :: cs)
      Token.NumberLiteral p.1 :: lexChars fuel p.2
    else if c = '"' then
      let p := collectStringLiteral cs
      Token.StringLiteral p.1 :: lexChars fuel p.2
    else if c = '=' then
      if cs.head? = some '=' then Token.EqualEqual :: lexChars fuel cs.tail
      else Token.Assign :: lexChars fuel cs
    else if c = '!' then
      if cs.head? = some '=' then Token.NotEqual :: lexChars fuel cs.tail
      else Token.Bang :: lexChars fuel cs
    else if c = '<' then
      if cs.head? = some '=' then Token.LessEqual :: lexChars fuel cs.tail
      else Token.LessThan :: lexChars fuel cs
    else if c = '>' then
      if cs.head? = some '=' then Token.GreaterEqual :: lexChars fuel cs.tail
      else Token.GreaterThan :: lexChars fuel cs
    else if c = '+' then Token.Plus :: lexChars fuel cs
    else if c = '-' then Token.Minus :: lexChars fuel cs
    else if c = '*' then Token.Star :: lexChars fuel cs
    else if c = '/' then Token.Slash :: lexChars fuel cs
    else if c = ',' then Token.Comma :: lexChars fuel cs
    else if c = ';' then Token.Semicolon :: lexChars fuel cs
    else if c = '(' then Token.LeftParen :: lexChars fuel cs
    else if c = ')' then Token.RightParen :: lexChars fuel cs
    else if c = '{' then Token.LeftBrace :: lexChars fuel cs
    else if c = '}' then Token.RightBrace :: lexChars fuel cs
    else lexChars fuel cs

/-- `lex` (`lexer.rs` 34-151): scan a whole source string. -/
def lex (input : String) : List Token :=
  lexChars (input.data.length + 1) input.data

/-- Syntax-tree nodes (`parser.rs`, `enum ASTNode`).  `Box` indirection and
`Vec` children become plain children and `List` children. -/
inductive ASTNode where
  | Program (statements : List ASTNode)
  | PrintStatement (expr : ASTNode)
  | VariableAssignment (name : String) (expr : ASTNode)
  | IfStatement (condition : ASTNode) (thenBranch : List ASTNode)
      (elseBranch : Option (List ASTNode))
  | FunctionDeclaration (name : String) (parameters : List String)
      (body : List ASTNode)
  | FunctionCall (name : String) (arguments : List ASTNode)
  | Identifier (name : String)
  | StringLiteral (value : String)
  | NumberLiteral (value : Rat)
  | BinaryExpression (left : ASTNode) (operator : Token) (right : ASTNode)
  | UnaryExpression (operator : Token) (operand : ASTNode)

/-- Lookup in an association list, modelling `HashMap::get`. -/
def lookupAL : List (String × ASTNode) → String → Option ASTNode
  | [], _ => none
  | (k, v) :: rest, n => if k = n then some v else lookupAL rest n

/-- Insert-or-overwrite in an association list, modelling `HashMap::insert`
(keys stay unique; the map's iteration order is never observed by the
program). -/
def insertAL : List (String × ASTNode) → String → ASTNode → List (String × ASTNode)
  | [], n, v => [(n, v)]
  | (k, w) :: rest, n, v =>
    if k = n then (k, v) :: rest else (k, w) :: insertAL rest n v

/-- `struct Environment` (`main.rs` 45-49): a map of variable bindings plus
an optional enclosing scope.  The Rust `Option<Box<Environment>>` chain is
flattened into two constructors: `top` is a scope with no enclosing link
and `inner` owns its enclosing scope. -/
inductive Environment where
  | top (values : List (String × ASTNode))
  | inner (values : List (String × ASTNode)) (enclosing : Environment)

/-- `Environment::new` (`main.rs` 52-57). -/
def Environment.new : Option Environment → Environment
  | none => .top []
  | some e => .inner [] e

/-- The `values` map of the innermost scope. -/
def Environment.values : Environment → List (String × ASTNode)
  | .top vs => vs
  | .inner vs _ => vs

/-- `Environment::define` (`main.rs` 59-61): bind in the current scope. -/
def Environment.define : Environment → String → ASTNode → Environment
  | .top vs, n, v => .top (insertAL vs n v)
  | .inner vs e, n, v => .inner (insertAL vs n v) e

/-- `Environment::get` (`main.rs` 63-71): look a name up through the scope
chain, innermost first. -/
def Environment.get : Environment → String → Option ASTNode
  | .top vs, n => lookupAL vs n
  | .inner vs e, n =>
    match lookupAL vs n with
    | some v => some v
    | none => e.get n

/-- `Environment::assign` (`main.rs` 73-82): update the nearest scope that
already defines the name.  The Rust `bool` + in-place mutation pair is
modelled as `Option`: `some env'` is the `true` case with the updated
chain, `none` is the `false` case (no scope defines the name, chain
untouched). -/
def Environment.assign : Environment → String → ASTNode → Option Environment
  | .top vs, n, v =>
    if (lookupAL vs n).isSome then some (.top (insertAL vs n v)) else none
  | .inner vs e, n, v =>
    if (lookupAL vs n).isSome then some (.inner (insertAL vs n v) e)
    else
      match e.assign n v with
      | some e' => some (.inner vs e')
      | none => none

/-- The assign-then-define combination of the variable-assignment statement
(`main.rs` 97-99): `if !env.assign(name, value) { env.define(name, value) }`. -/
def Environment.assignOrDefine (env : Environment) (n : String) (v : ASTNode) : Environment :=
  match env.assign n v with
  | some env' => env'
  | none => env.define n v

/-- `is_truthy` (`main.rs` 254-260). -/
def isTruthy : ASTNode → Bool
  | .NumberLiteral n => decide (n ≠ 0)
  | .StringLiteral s => decide (s ≠ "")
  | _ => false

/-- A runtime value: number literal or string literal node. -/
def isValue : ASTNode → Bool
  | .NumberLiteral _ => true
  | .StringLiteral _ => true
  | _ => false

/-- Digits of the decimal expansion of `r / d` (`0 ≤ r < d`), truncated at
`fuel` places. -/
def fracDigits : Nat → Nat → Nat → String
  | 0, _, _ => ""
  | _ + 1, 0, _ => ""
  | fuel + 1, r, d => Nat.repr (r * 10 / d) ++ fracDigits fuel (r * 10 % d) d

/-- Models Rust's default `f64` → text conversion (`to_string` and
`println!("{}")`): an integral value prints as a plain integer with no
decimal point (Rust prints `1`, not `1.0`); a non-integral value prints
sign, integer part, `.` and the decimal expansion (truncated at 17 places,
an abstraction of Rust's shortest-round-trip formatting; every value a
verified theorem actually renders is integral, where this model is
exact). -/
def numToString (q : Rat) : String :=
  if q.den = 1 then q.num.repr
  else
    (if q.num < 0 then "-" else "") ++
      Nat.repr (q.num.natAbs / q.den) ++ "." ++
      fracDigits 17 (q.num.natAbs % q.den) q.den

/-- The match inside the print statement (`main.rs` 89-93): the text line
written to stdout for an evaluated value. -/
def renderLine : ASTNode → String
  | .StringLiteral s => s
  | .NumberLiteral n => numToString n
  | _ => "Cannot print value"

/-- `eprintln!` text for an undefined variable (`main.rs` 155). -/
def undefinedVarMsg (name : String) : String :=
  "Error: Undefined variable '" ++ name ++ "'"

/-- `eprintln!` text for an undefined function (`main.rs` 138, 226). -/
def undefinedFnMsg (name : String) : String :=
  "Error: Undefined function '" ++ name ++ "'"

/-- `eprintln!` text for an argument-count mismatch (`main.rs` 126, 212). -/
def arityMsg (name : String) : String :=
  "Error: Incorrect number of arguments for function '" ++ name ++ "'"

/-- The binary-operator dispatch on a pair of evaluated operands
(`main.rs` 162-206): the result value together with the stderr lines the
branch emits.  Rust boolean-to-float casts `(b as i32) as f64` become
`if _ then 1 else 0`; `f64` arithmetic and ordering are modelled on `Rat`
(no verified property depends on rounding, division by zero or NaN). -/
def binOp : ASTNode → Token → ASTNode → ASTNode × List String
  | .NumberLiteral l, op, .NumberLiteral r =>
    match op with
    | .Plus => (.NumberLiteral (l + r), [])
    | .Minus => (.NumberLiteral (l - r), [])
    | .Star => (.NumberLiteral (l * r), [])
    | .Slash => (.NumberLiteral (l / r), [])
    | .EqualEqual => (.NumberLiteral (if l = r then 1 else 0), [])
    | .NotEqual => (.NumberLiteral (if l ≠ r then 1 else 0), [])
    | .LessThan => (.NumberLiteral (if l < r then 1 else 0), [])
    | .GreaterThan => (.NumberLiteral (if l > r then 1 else 0), [])
    | .LessEqual => (.NumberLiteral (if l ≤ r then 1 else 0), [])
    | .GreaterEqual => (.NumberLiteral (if l ≥ r then 1 else 0), [])
    | _ => (.NumberLiteral 0, ["Error: Unsupported operator"])
  | .StringLiteral l, op, .StringLiteral r =>
    match op with
    | .Plus => (.StringLiteral (l ++ r), [])
    | .EqualEqual => (.NumberLiteral (if l = r then 1 else 0), [])
    | .NotEqual => (.NumberLiteral (if l ≠ r then 1 else 0), [])
    | _ => (.NumberLiteral 0, ["Error: Unsupported operator for strings"])
  | .StringLiteral l, op, .NumberLiteral r =>
    match op with
    | .Plus => (.StringLiteral (l ++ numToString r), [])
    | _ => (.NumberLiteral 0, ["Error: Unsupported operator for string and number"])
  | .NumberLiteral l, op, .StringLiteral r =>
    match op with
    | .Plus => (.StringLiteral (numToString l ++ r), [])
    | _ => (.NumberLiteral 0, ["Error: Unsupported operator for number and string"])
  | _, _, _ => (.NumberLiteral 0, ["Error: Invalid operands"])

/-- The unary-operator dispatch on an evaluated operand
(`main.rs` 230-246). -/
def unaryOp : Token → ASTNode → ASTNode × List String
  | op, .NumberLiteral n =>
    match op with
    | .Minus => (.NumberLiteral (-n), [])
    | .Bang => (.NumberLiteral (if n = 0 then 1 else 0), [])
    | _ => (.NumberLiteral 0, ["Error: Unsupported unary operator"])
  | _, _ => (.NumberLiteral 0, ["Error: Invalid operand for unary operator"])

/-- Result of `evaluate`: the expression's value, the environment and
function table after the call (the Rust signature takes both by `&mut`),
and the stdout/stderr lines produced. -/
structure EvalRes where
  value : ASTNode
  env : Environment
  fns : List (String × ASTNode)
  out : List String
  err : List String

/-- Result of `execute` / a statement list. -/
structure ExecRes where
  env : Environment
  fns : List (String × ASTNode)
  out : List String
  err : List String

/-- Result of the argument-binding loop of a function call: caller
environment and function table after evaluating the arguments, plus the
callee scope with the parameters bound. -/
structure BindRes where
  env : Environment
  fns : List (String × ASTNode)
  localEnv : Environment
  out : List String
  err : List String

mutual

/-- `evaluate` (`main.rs` 147-252).  The Rust signature
`fn evaluate(node, env: &mut Environment, functions: &mut HashMap<…>) -> ASTNode`
becomes explicit state passing: the result carries the value together with
the environment and function table after the call and the output produced.
Fuel decreases on every recursive call; `none` models a run that does not
finish within the given fuel (user functions can recurse without bound, so
the Rust original can genuinely diverge). -/
def evaluate : Nat → ASTNode → Environment → List (String × ASTNode) → Option EvalRes
  | 0, _, _, _ => none
  | fuel + 1, node, env, fns =>
    match node with
    | .NumberLiteral n => some ⟨.NumberLiteral n, env, fns, [], []⟩
    | .StringLiteral s => some ⟨.StringLiteral s, env, fns, [], []⟩
    | .Identifier name =>
      match env.get name with
      | some v => some ⟨v, env, fns, [], []⟩
      | none => some ⟨.NumberLiteral 0, env, fns, [], [undefinedVarMsg name]⟩
    | .BinaryExpression l op r =>
      match evaluate fuel l env fns with
      | none => none
      | some lr =>
        match evaluate fuel r lr.env lr.fns with
        | none => none
        | some rr =>
          let res := binOp lr.value op rr.value
          some ⟨res.1, rr.env, rr.fns, lr.out ++ rr.out, lr.err ++ rr.err ++ res.2⟩
    | .FunctionCall name args =>
      match lookupAL fns name with
      | some (.FunctionDeclaration _ params body) =>
        if args.length ≠ params.length then
          some ⟨.NumberLiteral 0, env, fns, [], [arityMsg name]⟩
        else
          match bindArgs fuel (params.zip args) env fns (Environment.new (some env)) with
          | none => none
          | some br =>
            match execList fuel body br.localEnv br.fns with
            | none => none
            | some er =>
              some ⟨.NumberLiteral 0, br.env, er.fns, br.out ++ er.out, br.err ++ er.err⟩
      | _ => some ⟨.NumberLiteral 0, env, fns, [], [undefinedFnMsg name]⟩
    | .UnaryExpression op operand =>
      match evaluate fuel operand env fns with
      | none => none
      | some orr =>
        let res := unaryOp op orr.value
        some ⟨res.1, orr.env, orr.fns, orr.out, orr.err ++ res.2⟩
    | _ => some ⟨.NumberLiteral 0, env, fns, [], ["Error: Unsupported AST node in evaluation"]⟩

/-- `execute` (`main.rs` 85-145), with the same state-passing convention as
`evaluate`. -/
def execute : Nat → ASTNode → Environment → List (String × ASTNode) → Option ExecRes
  | 0, _, _, _ => none
  | fuel + 1, node, env, fns =>
    match node with
    | .PrintStatement expr =>
      match evaluate fuel expr env fns with
      | none => none
      | some r => some ⟨r.env, r.fns, r.out ++ [renderLine r.value], r.err⟩
    | .VariableAssignment name expr =>
      match evaluate fuel expr env fns with
      | none => none
      | some r => some ⟨r.env.assignOrDefine name r.value, r.fns, r.out, r.err⟩
    | .IfStatement c t e =>
      match evaluate fuel c env fns with
      | none => none
      | some r =>
        if isTruthy r.value then
          match execList fuel t (Environment.new (some r.env)) r.fns with
          | none => none
          | some br => some ⟨r.env, br.fns, r.out ++ br.out, r.err ++ br.err⟩
        else
          match e with
          | some stmts =>
            match execList fuel stmts (Environment.new (some r.env)) r.fns with
            | none => none
            | some br => some ⟨r.env, br.fns, r.out ++ br.out, r.err ++ br.err⟩
          | none => some ⟨r.env, r.fns, r.out, r.err⟩
    | .FunctionDeclaration name params body =>
      some ⟨env, insertAL fns name (.FunctionDeclaration name params body), [], []⟩
    | .FunctionCall name args =>
      match lookupAL fns name with
      | some (.FunctionDeclaration _ params body) =>
        if args.length ≠ params.length then
          some ⟨env, fns, [], [arityMsg name]⟩
        else
          match bindArgs fuel (params.zip args) env fns (Environment.new (some env)) with
          | none => none
          | some br =>
            match execList fuel body br.localEnv br.fns with
            | none => none
            | some er => some ⟨br.env, er.fns, br.out ++ er.out, br.err ++ er.err⟩
      | _ => some ⟨env, fns, [], [undefinedFnMsg name]⟩
    | _ => some ⟨env, fns, [], []⟩

/-- The `for stmt in …` loops of `execute`/`interpret`: run statements in
order, threading environment and function table. -/
def execList : Nat → List ASTNode → Environment → List (String × ASTNode) → Option ExecRes
  | 0, _, _, _ => none
  | _ + 1, [], env, fns => some ⟨env, fns, [], []⟩
  | fuel + 1, s :: rest, env, fns =>
    match execute fuel s env fns with
    | none => none
    | some r1 =>
      match execList fuel rest r1.env r1.fns with
      | none => none
      | some r2 => some ⟨r2.env, r2.fns, r1.out ++ r2.out, r1.err ++ r2.err⟩

/-- The argument-binding loop of a function call (`main.rs` 130-133,
216-219): evaluate each argument in the caller's environment and bind it
to the positional parameter in the callee scope. -/
def bindArgs : Nat → List (String × ASTNode) → Environment →
    List (String × ASTNode) → Environment → Option BindRes
  | 0, _, _, _, _ => none
  | _ + 1, [], env, fns, le => some ⟨env, fns, le, [], []⟩
  | fuel + 1, (p, a) :: rest, env, fns, le =>
    match evaluate fuel a env fns with
    | none => none
    | some r =>
      match bindArgs fuel rest r.env r.fns (le.define p r.value) with
      | none => none
      | some br => some ⟨br.env, br.fns, br.localEnv, r.out ++ br.out, r.err ++ br.err⟩

end

/-- `interpret` (`main.rs` 36-43): execute the top-level statements against
a fresh global environment and an empty function table. -/
def interpret (fuel : Nat) (nodes : List ASTNode) : Option ExecRes :=
  execList fuel nodes (Environment.new none) []

/-- The `{:?}` (Debug) rendering of a token used in `expect_token` error
messages.  Rust Debug prints float payloads with a decimal point
(`1.0`); `numToString` abstracts that detail — no verified property
depends on the exact message text. -/
def reprToken : Token → String
  | .Print => "Print"
  | .If => "If"
  | .Else => "Else"
  | .Function => "Function"
  | .Identifier n => "Identifier(\"" ++ n ++ "\")"
  | .StringLiteral s => "StringLiteral(\"" ++ s ++ "\")"
  | .NumberLiteral n => "NumberLiteral(" ++ numToString n ++ ")"
  | .Assign => "Assign"
  | .Plus => "Plus"
  | .Minus => "Minus"
  | .Star => "Star"
  | .Slash => "Slash"
  | .EqualEqual => "EqualEqual"
  | .NotEqual => "NotEqual"
  | .LessThan => "LessThan"
  | .GreaterThan => "GreaterThan"
  | .LessEqual => "LessEqual"
  | .GreaterEqual => "GreaterEqual"
  | .Bang => "Bang"
  | .Comma => "Comma"
  | .Semicolon => "Semicolon"
  | .LeftParen => "LeftParen"
  | .RightParen => "RightParen"
  | .LeftBrace => "LeftBrace"
  | .RightBrace => "RightBrace"
  | .EOF => "EOF"

/-- `expect_token` (`parser.rs` 305-315): consume one token and check it is
the expected one; an exhausted sequence reports `end of input`. -/
def expectToken (tokens : List Token) (expected : Token) : Except String (List Token) :=
  match tokens with
  | t :: rest =>
    if t = expected then .ok rest
    else .error ("Expected token " ++ reprToken expected ++ ", found " ++ reprToken t)
  | [] => .error ("Expected token " ++ reprToken expected ++ ", found end of input")

/-- Result of one parsing procedure: `none` is out of fuel (so
`(∀ fuel, … = none)` states that the Rust loop diverges), `some (.error m)`
the first parse error, `some (.ok (a, rest))` success with the remaining
tokens. -/
abbrev PRes (α : Type) := Option (Except String (α × List Token))

/-- Sequencing of parsing procedures: propagate out-of-fuel and the first
error. -/
def pbind {α β : Type} (x : PRes α) (f : α → List Token → PRes β) : PRes β :=
  match x with
  | none => none
  | some (.error e) => some (.error e)
  | some (.ok (a, ts)) => f a ts

/-- Sequencing through `expect_token` (the `?` operator on its result). -/
def pexpect {β : Type} (ts : List Token) (t : Token) (f : List Token → PRes β) : PRes β :=
  match expectToken ts t with
  | .error e => some (.error e)
  | .ok rest => f rest

mutual

/-- The `while` loop of `parse` (`parser.rs` 38-50): statements until the
end-marker (or an exhausted sequence).  Fuel decreases on every recursive
call of the mutual block. -/
def parseTop : Nat → List Token → PRes (List ASTNode)
  | 0, _ => none
  | fuel + 1, ts =>
    match ts with
    | [] => some (.ok ([], []))
    | Token.EOF :: _ => some (.ok ([], ts))
    | _ =>
      pbind (parseStatement fuel ts) fun node ts1 =>
        pbind (parseTop fuel ts1) fun rest ts2 => some (.ok (node :: rest, ts2))

/-- `parse_statement` (`parser.rs` 52-65): dispatch on the peeked token.
The end-marker case returns an empty `Program` node without consuming
anything. -/
def parseStatement : Nat → List Token → PRes ASTNode
  | 0, _ => none
  | fuel + 1, ts =>
    match ts with
    | Token.Print :: _ => parsePrintStatement fuel ts
    | Token.If :: _ => parseIfStatement fuel ts
    | Token.Function :: _ => parseFunctionDeclaration fuel ts
    | Token.Identifier _ :: _ => parseAssignmentOrExpressionStatement fuel ts
    | Token.Semicolon :: rest => some (.ok (ASTNode.Program [], rest))
    | Token.EOF :: _ => some (.ok (ASTNode.Program [], ts))
    | _ => some (.error "Unexpected token in statement.")

/-- `parse_print_statement` (`parser.rs` 67-72); `ts.drop 1` consumes the
dispatched `print` keyword. -/
def parsePrintStatement : Nat → List Token → PRes ASTNode
  | 0, _ => none
  | fuel + 1, ts =>
    pbind (parseExpression fuel (ts.drop 1)) fun expr ts1 =>
      pexpect ts1 Token.Semicolon fun ts2 =>
        some (.ok (ASTNode.PrintStatement expr, ts2))

/-- `parse_if_statement` (`parser.rs` 74-93). -/
def parseIfStatement : Nat → List Token → PRes ASTNode
  | 0, _ => none
  | fuel + 1, ts =>
    pexpect (ts.drop 1) Token.LeftParen fun ts1 =>
      pbind (parseExpression fuel ts1) fun cond ts2 =>
        pexpect ts2 Token.RightParen fun ts3 =>
          pexpect ts3 Token.LeftBrace fun ts4 =>
            pbind (parseBlock fuel ts4) fun thenB ts5 =>
              match ts5 with
              | Token.Else :: ts6 =>
                pexpect ts6 Token.LeftBrace fun ts7 =>
                  pbind (parseBlock fuel ts7) fun elseB ts8 =>
                    some (.ok (ASTNode.IfStatement cond thenB (some elseB), ts8))
              | _ => some (.ok (ASTNode.IfStatement cond thenB none, ts5))

/-- `parse_function_declaration` (`parser.rs` 95-112). -/
def parseFunctionDeclaration : Nat → List Token → PRes ASTNode
  | 0, _ => none
  | fuel + 1, ts =>
    match ts.drop 1 with
    | Token.Identifier name :: ts1 =>
      pexpect ts1 Token.LeftParen fun ts2 =>
        pbind (parseParameters fuel ts2) fun params ts3 =>
          pexpect ts3 Token.RightParen fun ts4 =>
            pexpect ts4 Token.LeftBrace fun ts5 =>
              pbind (parseBlock fuel ts5) fun body ts6 =>
                some (.ok (ASTNode.FunctionDeclaration name params body, ts6))
    | _ => some (.error "Expected function name.")

/-- The parameter-collection loop of `parse_parameters`
(`parser.rs` 114-133): identifiers separated by commas; a `)` or an
exhausted sequence stops collection; a comma not followed by another
identifier or `)` is an error on the next iteration, as in the Rust
loop. -/
def parseParameters : Nat → List Token → PRes (List String)
  | 0, _ => none
  | fuel + 1, ts =>
    match ts with
    | Token.Identifier name :: ts1 =>
      match ts1 with
      | Token.Comma :: ts2 =>
        pbind (parseParameters fuel ts2) fun rest ts3 => some (.ok (name :: rest, ts3))
      | _ => some (.ok ([name], ts1))
    | Token.RightParen :: _ => some (.ok ([], ts))
    | [] => some (.ok ([], ts))
    | _ => some (.error "Unexpected token in parameter list.")

/-- The statement-collection loop of `parse_block` (`parser.rs` 135-146):
statements until a `}` (consumed); an exhausted sequence exits the loop
returning the statements collected so far. -/
def parseBlock : Nat → List Token → PRes (List ASTNode)
  | 0, _ => none
  | fuel + 1, ts =>
    match ts with
    | [] => some (.ok ([], []))
    | Token.RightBrace :: rest => some (.ok ([], rest))
    | _ =>
      pbind (parseStatement fuel ts) fun stmt ts1 =>
        pbind (parseBlock fuel ts1) fun stmts ts2 => some (.ok (stmt :: stmts, ts2))

/-- `parse_assignment_or_expression_statement` (`parser.rs` 148-163). -/
def parseAssignmentOrExpressionStatement : Nat → List Token → PRes ASTNode
  | 0, _ => none
  | fuel + 1, ts =>
    pbind (parseExpression fuel ts) fun expr ts1 =>
      match ts1 with
      | Token.Assign :: ts2 =>
        match expr with
        | ASTNode.Identifier name =>
          pbind (parseExpression fuel ts2) fun value ts3 =>
            pexpect ts3 Token.Semicolon fun ts4 =>
              some (.ok (ASTNode.VariableAssignment name value, ts4))
        | _ => some (.error "Invalid assignment target.")
      | _ =>
        pexpect ts1 Token.Semicolon fun ts2 => some (.ok (expr, ts2))

/-- `parse_expression` (`parser.rs` 165-167). -/
def parseExpression : Nat → List Token → PRes ASTNode
  | 0, _ => none
  | fuel + 1, ts => parseEquality fuel ts

/-- `parse_equality` (`parser.rs` 169-186). -/
def parseEquality : Nat → List Token → PRes ASTNode
  | 0, _ => none
  | fuel + 1, ts =>
    pbind (parseComparison fuel ts) fun e ts1 => parseEqualityTail fuel e ts1

/-- The operator loop of `parse_equality`, building a left-leaning tree. -/
def parseEqualityTail : Nat → ASTNode → List Token → PRes ASTNode
  | 0, _, _ => none
  | fuel + 1, e, ts =>
    match ts with
    | Token.EqualEqual :: ts1 =>
      pbind (parseComparison fuel ts1) fun r ts2 =>
        parseEqualityTail fuel (ASTNode.BinaryExpression e Token.EqualEqual r) ts2
    | Token.NotEqual :: ts1 =>
      pbind (parseComparison fuel ts1) fun r ts2 =>
        parseEqualityTail fuel (ASTNode.BinaryExpression e Token.NotEqual r) ts2
    | _ => some (.ok (e, ts))

/-- `parse_comparison` (`parser.rs` 188-205). -/
def parseComparison : Nat → List Token → PRes ASTNode
  | 0, _ => none
  | fuel + 1, ts =>
    pbind (parseAddition fuel ts) fun e ts1 => parseComparisonTail fuel e ts1

/-- The operator loop of `parse_comparison`. -/
def parseComparisonTail : Nat → ASTNode → List Token → PRes ASTNode
  | 0, _, _ => none
  | fuel + 1, e, ts =>
    match ts with
    | Token.LessThan :: ts1 =>
      pbind (parseAddition fuel ts1) fun r ts2 =>
        parseComparisonTail fuel (ASTNode.BinaryExpression e Token.LessThan r) ts2
    | Token.GreaterThan :: ts1 =>
      pbind (parseAddition fuel ts1) fun r ts2 =>
        parseComparisonTail fuel (ASTNode.BinaryExpression e Token.GreaterThan r) ts2
    | Token.LessEqual :: ts1 =>
      pbind (parseAddition fuel ts1) fun r ts2 =>
        parseComparisonTail fuel (ASTNode.BinaryExpression e Token.LessEqual r) ts2
    | Token.GreaterEqual :: ts1 =>
      pbind (parseAddition fuel ts1) fun r ts2 =>
        parseComparisonTail fuel (ASTNode.BinaryExpression e Token.GreaterEqual r) ts2
    | _ => some (.ok (e, ts))

/-- `parse_addition` (`parser.rs` 207-224). -/
def parseAddition : Nat → List Token → PRes ASTNode
  | 0, _ => none
  | fuel + 1, ts =>
    pbind (parseMultiplication fuel ts) fun e ts1 => parseAdditionTail fuel e ts1

/-- The operator loop of `parse_addition`. -/
def parseAdditionTail : Nat → ASTNode → List Token → PRes ASTNode
  | 0, _, _ => none
  | fuel + 1, e, ts =>
    match ts with
    | Token.Plus :: ts1 =>
      pbind (parseMultiplication fuel ts1) fun r ts2 =>
        parseAdditionTail fuel (ASTNode.BinaryExpression e Token.Plus r) ts2
    | Token.Minus :: ts1 =>
      pbind (parseMultiplication fuel ts1) fun r ts2 =>
        parseAdditionTail fuel (ASTNode.BinaryExpression e Token.Minus r) ts2
    | _ => some (.ok (e, ts))

/-- `parse_multiplication` (`parser.rs` 226-243). -/
def parseMultiplication : Nat → List Token → PRes ASTNode
  | 0, _ => none
  | fuel + 1, ts =>
    pbind (parseUnary fuel ts) fun e ts1 => parseMultiplicationTail fuel e ts1

/-- The operator loop of `parse_multiplication`. -/
def parseMultiplicationTail : Nat → ASTNode → List Token → PRes ASTNode
  | 0, _, _ => none
  | fuel + 1, e, ts =>
    match ts with
    | Token.Star :: ts1 =>
      pbind (parseUnary fuel ts1) fun r ts2 =>
        parseMultiplicationTail fuel (ASTNode.BinaryExpression e Token.Star r) ts2
    | Token.Slash :: ts1 =>
      pbind (parseUnary fuel ts1) fun r ts2 =>
        parseMultiplicationTail fuel (ASTNode.BinaryExpression e Token.Slash r) ts2
    | _ => some (.ok (e, ts))

/-- `parse_unary` (`parser.rs` 245-260): right-recursive prefix `-`/`!`. -/
def parseUnary : Nat → List Token → PRes ASTNode
  | 0, _ => none
  | fuel + 1, ts =>
    match ts with
    | Token.Minus :: ts1 =>
      pbind (parseUnary fuel ts1) fun operand ts2 =>
        some (.ok (ASTNode.UnaryExpression Token.Minus operand, ts2))
    | Token.Bang :: ts1 =>
      pbind (parseUnary fuel ts1) fun operand ts2 =>
        some (.ok (ASTNode.UnaryExpression Token.Bang operand, ts2))
    | _ => parsePrimary fuel ts

/-- `parse_primary` (`parser.rs` 262-286). -/
def parsePrimary : Nat → List Token → PRes ASTNode
  | 0, _ => none
  | fuel + 1, ts =>
    match ts with
    | Token.NumberLiteral n :: ts1 => some (.ok (ASTNode.NumberLiteral n, ts1))
    | Token.StringLiteral s :: ts1 => some (.ok (ASTNode.StringLiteral s, ts1))
    | Token.Identifier name :: ts1 =>
      match ts1 with
      | Token.LeftParen :: ts2 =>
        pbind (parseArguments fuel ts2) fun args ts3 =>
          pexpect ts3 Token.RightParen fun ts4 =>
            some (.ok (ASTNode.FunctionCall name args, ts4))
      | _ => some (.ok (ASTNode.Identifier name, ts1))
    | Token.LeftParen :: ts1 =>
      pbind (parseExpression fuel ts1) fun e ts2 =>
        pexpect ts2 Token.RightParen fun ts3 => some (.ok (e, ts3))
    | _ => some (.error "Expected an expression.")

/-- The argument-collection loop of `parse_arguments`
(`parser.rs` 288-303). -/
def parseArguments : Nat → List Token → PRes (List ASTNode)
  | 0, _ => none
  | fuel + 1, ts =>
    match ts with
    | [] => some (.ok ([], []))
    | Token.RightParen :: _ => some (.ok ([], ts))
    | _ =>
      pbind (parseExpression fuel ts) fun arg ts1 =>
        match ts1 with
        | Token.Comma :: ts2 =>
          pbind (parseArguments fuel ts2) fun rest ts3 => some (.ok (arg :: rest, ts3))
        | _ => some (.ok ([arg], ts1))

end

/-- `parse` (`parser.rs` 38-50): the whole-sequence entry point, dropping
the remaining-token component. -/
def parse (fuel : Nat) (tokens : List Token) : Option (Except String (List ASTNode)) :=
  match parseTop fuel tokens with
  | none => none
  | some (.error e) => some (.error e)
  | some (.ok (ast, _)) => some (.ok ast)

/-- Spec-side (for the refinement check of the variable-assignment
contract): some scope in the chain already defines the name. -/
def definesChain : Environment → String → Bool
  | .top vs, n => (lookupAL vs n).isSome
  | .inner vs e, n => (lookupAL vs n).isSome || definesChain e n

/-- Spec-side: update the binding in the nearest scope of the chain
(innermost first) that defines the name (callers establish
`definesChain`). -/
def updateNearest : Environment → String → ASTNode → Environment
  | .top vs, n, v => .top (insertAL vs n v)
  | .inner vs e, n, v =>
    if (lookupAL vs n).isSome then .inner (insertAL vs n v) e
    else .inner vs (updateNearest e n v)

/-- The variable-assignment behaviour exactly as the specification words
it: update the name in the nearest scope of the chain (innermost first)
that already defines it; if no scope in the chain defines it, create the
binding fresh in the current (innermost) scope.  Defined from the spec's
words, to be compared with the code's `Environment.assignOrDefine`. -/
def assignSpec (env : Environment) (n : String) (v : ASTNode) : Environment :=
  if definesChain env n then updateNearest env n v else env.define n v

/-- Every binding of one scope's map is a literal value. -/
def valuesWF (vs : List (String × ASTNode)) : Bool :=
  vs.all fun p => isValue p.2

/-- Every binding of every scope of the chain is a literal value. -/
def envWF : Environment → Bool
  | .top vs => valuesWF vs
  | .inner vs e => valuesWF vs && envWF e

/-! ### Association-list and environment lemmas -/

theorem lookupAL_insertAL_self (vs : List (String × ASTNode)) (n : String) (v : ASTNode) :
    lookupAL (insertAL vs n v) n = some v := by
  induction vs with
  | nil => simp [insertAL, lookupAL]
  | cons p rest ih =>
    obtain ⟨k, w⟩ := p
    by_cases h : k = n <;> simp [insertAL, lookupAL, h, ih]

theorem lookupAL_insertAL_other (vs : List (String × ASTNode)) (n m : String)
    (v : ASTNode) (h : m ≠ n) :
    lookupAL (insertAL vs n v) m = lookupAL vs m := by
  induction vs with
  | nil => simp [insertAL, lookupAL, Ne.symm h]
  | cons p rest ih =>
    obtain ⟨k, w⟩ := p
    by_cases hk : k = n
    · subst hk
      simp [insertAL, lookupAL, Ne.symm h]
    · simp [insertAL, lookupAL, hk, ih]

theorem Environment.get_define_self (env : Environment) (n : String) (v : ASTNode) :
    (env.define n v).get n = some v := by
  cases env <;> simp [Environment.define, Environment.get, lookupAL_insertAL_self]

theorem Environment.get_define_other (env : Environment) (n m : String) (v : ASTNode)
    (h : m ≠ n) : (env.define n v).get m = env.get m := by
  cases env <;> simp [Environment.define, Environment.get, lookupAL_insertAL_other _ _ _ _ h]

theorem Environment.get_assign_self (env env' : Environment) (n : String) (v : ASTNode)
    (h : env.assign n v = some env') : env'.get n = some v := by
  induction env generalizing env' with
  | top vs =>
    simp only [Environment.assign] at h
    split at h
    · cases h; simp [Environment.get, lookupAL_insertAL_self]
    · cases h
  | inner vs e ih =>
    simp only [Environment.assign] at h
    split at h
    · cases h; simp [Environment.get, lookupAL_insertAL_self]
    · rename_i hvs
      split at h
      · rename_i e' he
        cases h
        simp only [Environment.get]
        rw [Option.not_isSome_iff_eq_none] at hvs
        rw [hvs]
        exact ih e' he
      · cases h

theorem Environment.get_assign_other (env env' : Environment) (n m : String) (v : ASTNode)
    (hm : m ≠ n) (h : env.assign n v = some env') : env'.get m = env.get m := by
  induction env generalizing env' with
  | top vs =>
    simp only [Environment.assign] at h
    split at h
    · cases h; simp [Environment.get, lookupAL_insertAL_other _ _ _ _ hm]
    · cases h
  | inner vs e ih =>
    simp only [Environment.assign] at h
    split at h
    · cases h; simp [Environment.get, lookupAL_insertAL_other _ _ _ _ hm]
    · split at h
      · rename_i e' he
        cases h
        simp only [Environment.get]
        rw [ih e' he]
      · cases h

/-- After the assign-or-define combination the assigned name reads back as
the assigned value. -/
theorem Environment.get_assignOrDefine_self (env : Environment) (n : String) (v : ASTNode) :
    (env.assignOrDefine n v).get n = some v := by
  unfold Environment.assignOrDefine
  split
  · rename_i env' h
    exact Environment.get_assign_self env env' n v h
  · exact Environment.get_define_self env n v

/-- The assign-or-define combination changes no other binding. -/
theorem Environment.get_assignOrDefine_other (env : Environment) (n m : String)
    (v : ASTNode) (hm : m ≠ n) :
    (env.assignOrDefine n v).get m = env.get m := by
  unfold Environment.assignOrDefine
  split
  · rename_i env' h
    exact Environment.get_assign_other env env' n m v hm h
  · exact Environment.get_define_other env n m v hm

/-! ### Frame lemma: `evaluate` never changes the caller's environment -/

/-- `evaluate` (and the argument-binding loop) return the caller's
environment chain unchanged: the Rust `evaluate` only ever reads `env`. -/
theorem evaluate_bindArgs_env (fuel : Nat) :
    (∀ e env fns r, evaluate fuel e env fns = some r → r.env = env) ∧
    (∀ pairs env fns le br, bindArgs fuel pairs env fns le = some br → br.env = env) := by
  induction fuel with
  | zero =>
    refine ⟨fun e env fns r h => ?_, fun pairs env fns le br h => ?_⟩ <;>
      simp [evaluate, bindArgs] at h
  | succ n ih =>
    obtain ⟨ihE, ihB⟩ := ih
    refine ⟨fun e env fns r h => ?_, fun pairs env fns le br h => ?_⟩
    · cases e <;> simp only [evaluate] at h
      case NumberLiteral v => cases h; rfl
      case StringLiteral s => cases h; rfl
      case Identifier name =>
        split at h <;> (cases h; rfl)
      case BinaryExpression l op r' =>
        split at h
        · exact absurd h (by simp)
        · rename_i lr hl
          split at h
          · exact absurd h (by simp)
          · rename_i rr hr
            cases h
            simp only
            rw [ihE _ _ _ _ hr, ihE _ _ _ _ hl]
      case FunctionCall name args =>
        split at h
        · split at h
          · cases h; rfl
          · split at h
            · exact absurd h (by simp)
            · rename_i br hb
              split at h
              · exact absurd h (by simp)
              · rename_i er he
                cases h
                simp only
                exact ihB _ _ _ _ _ hb
        · cases h; rfl
      case UnaryExpression op operand =>
        split at h
        · exact absurd h (by simp)
        · rename_i orr ho
          cases h
          simp only
          exact ihE _ _ _ _ ho
      case Program stmts => cases h; rfl
      case PrintStatement e1 => cases h; rfl
      case VariableAssignment nm e1 => cases h; rfl
      case IfStatement c t e1 => cases h; rfl
      case FunctionDeclaration nm ps b => cases h; rfl
    · cases pairs with
      | nil => simp only [bindArgs] at h; cases h; rfl
      | cons pa rest =>
        obtain ⟨p, a⟩ := pa
        simp only [bindArgs] at h
        split at h
        · exact absurd h (by simp)
        · rename_i r ha
          split at h
          · exact absurd h (by simp)
          · rename_i br2 hb
            cases h
            simp only
            rw [ihB _ _ _ _ _ hb, ihE _ _ _ _ ha]

/-- The environment-preservation half of `evaluate_bindArgs_env` alone. -/
theorem evaluate_env (fuel : Nat) (e : ASTNode) (env : Environment)
    (fns : List (String × ASTNode)) (r : EvalRes)
    (h : evaluate fuel e env fns = some r) : r.env = env :=
  (evaluate_bindArgs_env fuel).1 e env fns r h

/-- The caller-environment-preservation half for the argument-binding
loop. -/
theorem bindArgs_env (fuel : Nat) (pairs : List (String × ASTNode))
    (env : Environment) (fns : List (String × ASTNode)) (le : Environment)
    (br : BindRes) (h : bindArgs fuel pairs env fns le = some br) : br.env = env :=
  (evaluate_bindArgs_env fuel).2 pairs env fns le br h

/-- A literal value evaluates to itself without touching any state. -/
theorem evaluate_value_self (fuel : Nat) (v : ASTNode) (env : Environment)
    (fns : List (String × ASTNode)) (hv : isValue v = true) :
    evaluate (fuel + 1) v env fns = some ⟨v, env, fns, [], []⟩ := by
  cases v <;> simp_all [isValue, evaluate]

/-- `binOp` always produces a literal value, whatever the operands were. -/
theorem binOp_value (lv : ASTNode) (op : Token) (rv : ASTNode) :
    isValue (binOp lv op rv).1 = true := by
  unfold binOp
  split <;> (try split) <;> simp [isValue]

/-- When `binOp` emits an error message its value is the sentinel 0. -/
theorem binOp_error_or_silent (lv : ASTNode) (op : Token) (rv : ASTNode) :
    (binOp lv op rv).1 = ASTNode.NumberLiteral 0 ∨ (binOp lv op rv).2 = [] := by
  unfold binOp
  split <;> (try split) <;> simp

/-- `unaryOp` always produces a literal value. -/
theorem unaryOp_value (op : Token) (v : ASTNode) :
    isValue (unaryOp op v).1 = true := by
  unfold unaryOp
  split <;> (try split) <;> simp [isValue]

theorem assign_isSome_iff_definesChain (env : Environment) (n : String) (v : ASTNode) :
    (env.assign n v).isSome = definesChain env n := by
  induction env with
  | top vs => simp only [Environment.assign, definesChain]; split <;> simp_all
  | inner vs e ih =>
    simp only [Environment.assign, definesChain]
    split
    · simp_all
    · rename_i hvs
      simp only [hvs, Bool.false_or]
      rw [← ih]
      split <;> simp_all

theorem assign_eq_updateNearest (env env' : Environment) (n : String) (v : ASTNode)
    (h : env.assign n v = some env') : env' = updateNearest env n v := by
  induction env generalizing env' with
  | top vs =>
    simp only [Environment.assign] at h
    split at h
    · cases h; rfl
    · cases h
  | inner vs e ih =>
    simp only [Environment.assign] at h
    split at h
    · rename_i hvs
      cases h
      simp [updateNearest, hvs]
    · rename_i hvs
      split at h
      · rename_i e' he
        cases h
        simp [updateNearest, hvs, ih e' he]
      · cases h

/-- The code's assign-then-define combination implements exactly the
spec's wording of assignment. -/
theorem assignOrDefine_eq_assignSpec (env : Environment) (n : String) (v : ASTNode) :
    env.assignOrDefine n v = assignSpec env n v := by
  unfold Environment.assignOrDefine assignSpec
  cases h : env.assign n v with
  | none =>
    have : definesChain env n = false := by
      rw [← assign_isSome_iff_definesChain env n v, h]; rfl
    simp [this]
  | some env' =>
    have : definesChain env n = true := by
      rw [← assign_isSome_iff_definesChain env n v, h]; rfl
    simp [this, assign_eq_updateNearest env env' n v h]

theorem lookupAL_mem (vs : List (String × ASTNode)) (n : String) (v : ASTNode)
    (h : lookupAL vs n = some v) : (n, v) ∈ vs := by
  induction vs with
  | nil => simp [lookupAL] at h
  | cons p rest ih =>
    obtain ⟨k, w⟩ := p
    simp only [lookupAL] at h
    split at h
    · rename_i hk
      cases h
      subst hk
      exact List.mem_cons_self _ _
    · exact List.mem_cons_of_mem _ (ih h)

theorem valuesWF_lookupAL (vs : List (String × ASTNode)) (n : String) (v : ASTNode)
    (hwf : valuesWF vs = true) (h : lookupAL vs n = some v) : isValue v = true := by
  have hm := lookupAL_mem vs n v h
  simpa using List.all_eq_true.mp hwf (n, v) hm

theorem valuesWF_insertAL (vs : List (String × ASTNode)) (n : String) (v : ASTNode)
    (hwf : valuesWF vs = true) (hv : isValue v = true) :
    valuesWF (insertAL vs n v) = true := by
  induction vs with
  | nil => simp [insertAL, valuesWF, hv]
  | cons p rest ih =>
    obtain ⟨k, w⟩ := p
    simp only [valuesWF, List.all_cons, Bool.and_eq_true] at hwf
    by_cases hk : k = n
    · simp [insertAL, hk, valuesWF, hv]
      intro a b hab
      simpa using List.all_eq_true.mp hwf.2 (a, b) hab
    · simp only [insertAL, hk, if_false, valuesWF, List.all_cons, Bool.and_eq_true]
      exact ⟨hwf.1, ih hwf.2⟩

theorem envWF_get (env : Environment) (n : String) (v : ASTNode)
    (hwf : envWF env = true) (h : env.get n = some v) : isValue v = true := by
  induction env with
  | top vs =>
    simp only [Environment.get] at h
    exact valuesWF_lookupAL vs n v (by simpa [envWF] using hwf) h
  | inner vs e ih =>
    simp only [envWF, Bool.and_eq_true] at hwf
    simp only [Environment.get] at h
    split at h
    · rename_i w hw
      cases h
      exact valuesWF_lookupAL vs n v hwf.1 hw
    · exact ih hwf.2 h

theorem envWF_define (env : Environment) (n : String) (v : ASTNode)
    (hwf : envWF env = true) (hv : isValue v = true) :
    envWF (env.define n v) = true := by
  cases env with
  | top vs => simpa [Environment.define, envWF] using
      valuesWF_insertAL vs n v (by simpa [envWF] using hwf) hv
  | inner vs e =>
    simp only [envWF, Bool.and_eq_true] at hwf
    simp only [Environment.define, envWF, Bool.and_eq_true]
    exact ⟨valuesWF_insertAL vs n v hwf.1 hv, hwf.2⟩

theorem envWF_assign (env env' : Environment) (n : String) (v : ASTNode)
    (hwf : envWF env = true) (hv : isValue v = true)
    (h : env.assign n v = some env') : envWF env' = true := by
  induction env generalizing env' with
  | top vs =>
    simp only [Environment.assign] at h
    split at h
    · cases h
      simpa [envWF] using valuesWF_insertAL vs n v (by simpa [envWF] using hwf) hv
    · cases h
  | inner vs e ih =>
    simp only [envWF, Bool.and_eq_true] at hwf
    simp only [Environment.assign] at h
    split at h
    · cases h
      simp only [envWF, Bool.and_eq_true]
      exact ⟨valuesWF_insertAL vs n v hwf.1 hv, hwf.2⟩
    · split at h
      · rename_i e' he
        cases h
        simp only [envWF, Bool.and_eq_true]
        exact ⟨hwf.1, ih e' hwf.2 he⟩
      · cases h

theorem envWF_assignOrDefine (env : Environment) (n : String) (v : ASTNode)
    (hwf : envWF env = true) (hv : isValue v = true) :
    envWF (env.assignOrDefine n v) = true := by
  unfold Environment.assignOrDefine
  split
  · rename_i env' h
    exact envWF_assign env env' n v hwf hv h
  · exact envWF_define env n v hwf hv

/-- With a well-formed environment, `evaluate` always produces a literal
value (number or string); no other runtime value shape can arise. -/
theorem evaluate_isValue (fuel : Nat) (e : ASTNode) (env : Environment)
    (fns : List (String × ASTNode)) (r : EvalRes)
    (hwf : envWF env = true) (h : evaluate fuel e env fns = some r) :
    isValue r.value = true := by
  cases fuel with
  | zero => simp [evaluate] at h
  | succ n =>
    cases e <;> simp only [evaluate] at h
    case NumberLiteral v => cases h; rfl
    case StringLiteral s => cases h; rfl
    case Identifier name =>
      split at h
      · rename_i v hv
        cases h
        exact envWF_get env name v hwf hv
      · cases h; rfl
    case BinaryExpression l op r' =>
      split at h
      · exact absurd h (by simp)
      · split at h
        · exact absurd h (by simp)
        · cases h
          exact binOp_value _ _ _
    case FunctionCall name args =>
      split at h
      · split at h
        · cases h; rfl
        · split at h
          · exact absurd h (by simp)
          · split at h
            · exact absurd h (by simp)
            · cases h; rfl
      · cases h; rfl
    case UnaryExpression op operand =>
      split at h
      · exact absurd h (by simp)
      · cases h
        exact unaryOp_value _ _
    case Program stmts => cases h; rfl
    case PrintStatement e1 => cases h; rfl
    case VariableAssignment nm e1 => cases h; rfl
    case IfStatement c t e1 => cases h; rfl
    case FunctionDeclaration nm ps b => cases h; rfl

/-- Statement execution preserves the runtime-value invariant of the
caller's environment chain. -/
theorem execute_envWF (fuel : Nat) (s : ASTNode) (env : Environment)
    (fns : List (String × ASTNode)) (r : ExecRes)
    (hwf : envWF env = true) (h : execute fuel s env fns = some r) :
    envWF r.env = true := by
  cases fuel with
  | zero => simp [execute] at h
  | succ n =>
    cases s <;> simp only [execute] at h
    case PrintStatement e1 =>
      split at h
      · exact absurd h (by simp)
      · rename_i er he
        cases h
        simpa [evaluate_env n e1 env fns er he] using hwf
    case VariableAssignment nm e1 =>
      split at h
      · exact absurd h (by simp)
      · rename_i er he
        cases h
        have hv := evaluate_isValue n e1 env fns er hwf he
        have henv := evaluate_env n e1 env fns er he
        simp only
        rw [henv]
        exact envWF_assignOrDefine env nm er.value hwf hv
    case IfStatement c t e1 =>
      split at h
      · exact absurd h (by simp)
      · rename_i rc hc
        have henv := evaluate_env n c env fns rc hc
        split at h
        · split at h
          · exact absurd h (by simp)
          · cases h; simpa [henv] using hwf
        · split at h
          · split at h
            · exact absurd h (by simp)
            · cases h; simpa [henv] using hwf
          · cases h; simpa [henv] using hwf
    case FunctionDeclaration nm ps b => cases h; simpa using hwf
    case FunctionCall name args =>
      split at h
      · split at h
        · cases h; simpa using hwf
        · split at h
          · exact absurd h (by simp)
          · rename_i br hb
            split at h
            · exact absurd h (by simp)
            · cases h
              simpa [bindArgs_env n _ env fns _ br hb] using hwf
      · cases h; simpa using hwf
    case Program stmts => cases h; simpa using hwf
    case Identifier nm => cases h; simpa using hwf
    case StringLiteral s1 => cases h; simpa using hwf
    case NumberLiteral v1 => cases h; simpa using hwf
    case BinaryExpression l op r1 => cases h; simpa using hwf
    case UnaryExpression op o1 => cases h; simpa using hwf

/-! ### Lexer lemmas -/

theorem keywordOrIdentifier_ne_eof (s : String) :
    keywordOrIdentifier s ≠ Token.EOF := by
  unfold keywordOrIdentifier
  split_ifs <;> simp

theorem lexChars_cons_decomp {n : Nat} {rest : List Char} (tok : Token)
    (h : tok ≠ Token.EOF)
    (ih : ∃ ts, lexChars n rest = ts ++ [Token.EOF] ∧ Token.EOF ∉ ts) :
    ∃ ts, tok :: lexChars n rest = ts ++ [Token.EOF] ∧ Token.EOF ∉ ts := by
  obtain ⟨ts, h1, h2⟩ := ih
  exact ⟨tok :: ts, by rw [h1, List.cons_append], by simp [h2, Ne.symm h]⟩

set_option maxHeartbeats 2000000 in
/-- Whatever the input and fuel, the scanned token list is a run of
non-end-marker tokens followed by exactly one end-marker. -/
theorem lexChars_decomp (fuel : Nat) : ∀ cs : List Char,
    ∃ ts, lexChars fuel cs = ts ++ [Token.EOF] ∧ Token.EOF ∉ ts := by
  induction fuel with
  | zero => exact fun cs => ⟨[], rfl, by simp⟩
  | succ n ih =>
    intro cs
    cases cs with
    | nil => exact ⟨[], rfl, by simp⟩
    | cons c cs' =>
      by_cases hw : c.isWhitespace = true
      · simp only [lexChars, hw, if_true]
        exact ih _
      rw [Bool.not_eq_true] at hw
      by_cases ha : (c.isAlpha || c = '_') = true
      · simp only [lexChars, hw, Bool.false_eq_true, if_false, ha, if_true]
        exact lexChars_cons_decomp _ (keywordOrIdentifier_ne_eof _) (ih _)
      rw [Bool.not_eq_true] at ha
      by_cases hd : c.isDigit = true
      · simp only [lexChars, hw, ha, Bool.false_eq_true, if_false, hd, if_true]
        exact lexChars_cons_decomp _ (by simp) (ih _)
      rw [Bool.not_eq_true] at hd
      by_cases h4 : c = '"'
      · subst h4
        simp only [lexChars, hw, ha, hd, Bool.false_eq_true, if_false,
          eq_self_iff_true, if_true]
        exact lexChars_cons_decomp _ (by simp) (ih _)
      by_cases h5 : c = '='
      · subst h5
        simp only [lexChars, hw, ha, hd, Bool.false_eq_true, if_false, h4,
          eq_self_iff_true, if_true]
        by_cases h5b : cs'.head? = some '='
        · simp only [h5b, if_true]
          exact lexChars_cons_decomp _ (by simp) (ih _)
        · simp only [h5b, if_false]
          exact lexChars_cons_decomp _ (by simp) (ih _)
      by_cases h6 : c = '!'
      · subst h6
        simp only [lexChars, hw, ha, hd, Bool.false_eq_true, if_false, h4, h5,
          eq_self_iff_true, if_true]
        by_cases h6b : cs'.head? = some '='
        · simp only [h6b, if_true]
          exact lexChars_cons_decomp _ (by simp) (ih _)
        · simp only [h6b, if_false]
          exact lexChars_cons_decomp _ (by simp) (ih _)
      by_cases h7 : c = '<'
      · subst h7
        simp only [lexChars, hw, ha, hd, Bool.false_eq_true, if_false, h4, h5, h6,
          eq_self_iff_true, if_true]
        by_cases h7b : cs'.head? = some '='
        · simp only [h7b, if_true]
          exact lexChars_cons_decomp _ (by simp) (ih _)
        · simp only [h7b, if_false]
          exact lexChars_cons_decomp _ (by simp) (ih _)
      by_cases h8 : c = '>'
      · subst h8
        simp only [lexChars, hw, ha, hd, Bool.false_eq_true, if_false, h4, h5, h6,
          h7, eq_self_iff_true, if_true]
        by_cases h8b : cs'.head? = some '='
        · simp only [h8b, if_true]
          exact lexChars_cons_decomp _ (by simp) (ih _)
        · simp only [h8b, if_false]
          exact lexChars_cons_decomp _ (by simp) (ih _)
      by_cases h9 : c = '+'
      · subst h9
        simp only [lexChars, hw, ha, hd, Bool.false_eq_true, if_false, h4, h5, h6,
          h7, h8, eq_self_iff_true, if_true]
        exact lexChars_cons_decomp _ (by simp) (ih _)
      by_cases h10 : c = '-'
      · subst h10
        simp only [lexChars, hw, ha, hd, Bool.false_eq_true, if_false, h4, h5, h6,
          h7, h8, h9, eq_self_iff_true, if_true]
        exact lexChars_cons_decomp _ (by simp) (ih _)
      by_cases h11 : c = '*'
      · subst h11
        simp only [lexChars, hw, ha, hd, Bool.false_eq_true, if_false, h4, h5, h6,
          h7, h8, h9, h10, eq_self_iff_true, if_true]
        exact lexChars_cons_decomp _ (by simp) (ih _)
      by_cases h12 : c = '/'
      · subst h12
        simp only [lexChars, hw, ha, hd, Bool.false_eq_true, if_false, h4, h5, h6,
          h7, h8, h9, h10, h11, eq_self_iff_true, if_true]
        exact lexChars_cons_decomp _ (by simp) (ih _)
      by_cases h13 : c = ','
      · subst h13
        simp only [lexChars, hw, ha, hd, Bool.false_eq_true, if_false, h4, h5, h6,
          h7, h8, h9, h10, h11, h12, eq_self_iff_true, if_true]
        exact lexChars_cons_decomp _ (by simp) (ih _)
      by_cases h14 : c = ';'
      · subst h14
        simp only [lexChars, hw, ha, hd, Bool.false_eq_true, if_false, h4, h5, h6,
          h7, h8, h9, h10, h11, h12, h13, eq_self_iff_true, if_true]
        exact lexChars_cons_decomp _ (by simp) (ih _)
      by_cases h15 : c = '('
      · subst h15
        simp only [lexChars, hw, ha, hd, Bool.false_eq_true, if_false, h4, h5, h6,
          h7, h8, h9, h10, h11, h12, h13, h14, eq_self_iff_true, if_true]
        exact lexChars_cons_decomp _ (by simp) (ih _)
      by_cases h16 : c = ')'
      · subst h16
        simp only [lexChars, hw, ha, hd, Bool.false_eq_true, if_false, h4, h5, h6,
          h7, h8, h9, h10, h11, h12, h13, h14, h15, eq_self_iff_true, if_true]
        exact lexChars_cons_decomp _ (by simp) (ih _)
      by_cases h17 : c = '{'
      · subst h17
        simp only [lexChars, hw, ha, hd, Bool.false_eq_true, if_false, h4, h5, h6,
          h7, h8, h9, h10, h11, h12, h13, h14, h15, h16, eq_self_iff_true, if_true]
        exact lexChars_cons_decomp _ (by simp) (ih _)
      by_cases h18 : c = '}'
      · subst h18
        simp only [lexChars, hw, ha, hd, Bool.false_eq_true, if_false, h4, h5, h6,
          h7, h8, h9, h10, h11, h12, h13, h14, h15, h16, h17, eq_self_iff_true,
          if_true]
        exact lexChars_cons_decomp _ (by simp) (ih _)
      simp only [lexChars, hw, ha, hd, Bool.false_eq_true, if_false, h4, h5, h6,
        h7, h8, h9, h10, h11, h12, h13, h14, h15, h16, h17, h18]
      exact ih _

/-- A decimal digit is not whitespace. -/
theorem isDigit_isWhitespace_eq_false (c : Char) (h : c.isDigit = true) :
    c.isWhitespace = false := by
  simp only [Char.isDigit, Bool.and_eq_true, decide_eq_true_eq, ge_iff_le,
    UInt32.le_def, BitVec.le_def] at h
  simp only [Char.isWhitespace, Bool.or_eq_false_iff, decide_eq_false_iff_not]
  refine ⟨⟨⟨?_, ?_⟩, ?_⟩, ?_⟩ <;> (rintro rfl; revert h; decide)

/-- A decimal digit heads neither an identifier nor a keyword. -/
theorem isDigit_alpha_underscore_eq_false (c : Char) (h : c.isDigit = true) :
    (c.isAlpha || c = '_') = false := by
  have h65 : (UInt32.toBitVec 65).toNat = 65 := by decide
  have h90 : (UInt32.toBitVec 90).toNat = 90 := by decide
  have h97 : (UInt32.toBitVec 97).toNat = 97 := by decide
  have h122 : (UInt32.toBitVec 122).toNat = 122 := by decide
  have h48 : (UInt32.toBitVec 48).toNat = 48 := by decide
  have h57 : (UInt32.toBitVec 57).toNat = 57 := by decide
  simp only [Char.isDigit, Bool.and_eq_true, decide_eq_true_eq, ge_iff_le,
    UInt32.le_def, BitVec.le_def, h48, h57] at h
  simp only [Bool.or_eq_false_iff, Char.isAlpha, Char.isUpper, Char.isLower,
    ge_iff_le, UInt32.le_def, BitVec.le_def, Bool.and_eq_false_iff,
    decide_eq_false_iff_not, h65, h90, h97, h122]
  constructor
  · omega
  · rintro rfl; revert h; decide

/-- On a digit the scanner takes the number branch: it emits one
number-literal token for the maximal digits-and-dots run and continues
after that run. -/
theorem lexChars_number_branch (fuel : Nat) (c : Char) (cs : List Char)
    (hd : c.isDigit = true) :
    lexChars (fuel + 1) (c :: cs) =
      Token.NumberLiteral (collectNumber (c :: cs)).1 ::
        lexChars fuel (collectNumber (c :: cs)).2 := by
  simp only [lexChars, isDigit_isWhitespace_eq_false c hd,
    isDigit_alpha_underscore_eq_false c hd, hd, Bool.false_eq_true, if_false,
    if_true]

/-! ### Inversion lemmas for statement execution -/

theorem execList_nil_inv {n : Nat} {env : Environment} {fns : List (String × ASTNode)}
    {r : ExecRes} (h : execList (n + 1) [] env fns = some r) : r = ⟨env, fns, [], []⟩ := by
  simp only [execList] at h
  cases h
  rfl

theorem execList_cons_inv {n : Nat} {s : ASTNode} {rest : List ASTNode}
    {env : Environment} {fns : List (String × ASTNode)} {r : ExecRes}
    (h : execList (n + 1) (s :: rest) env fns = some r) :
    ∃ r1 r2, execute n s env fns = some r1 ∧
      execList n rest r1.env r1.fns = some r2 ∧
      r = ⟨r2.env, r2.fns, r1.out ++ r2.out, r1.err ++ r2.err⟩ := by
  simp only [execList] at h
  split at h
  · exact absurd h (by simp)
  · rename_i r1 h1
    split at h
    · exact absurd h (by simp)
    · rename_i r2 h2
      cases h
      exact ⟨r1, r2, h1, h2, rfl⟩

theorem execute_assign_inv {n : Nat} {x : String} {e : ASTNode}
    {env : Environment} {fns : List (String × ASTNode)} {r : ExecRes}
    (h : execute (n + 1) (ASTNode.VariableAssignment x e) env fns = some r) :
    ∃ er, evaluate n e env fns = some er ∧
      r = ⟨er.env.assignOrDefine x er.value, er.fns, er.out, er.err⟩ := by
  simp only [execute] at h
  split at h
  · exact absurd h (by simp)
  · rename_i er he
    cases h
    exact ⟨er, he, rfl⟩

theorem execute_print_inv {n : Nat} {e : ASTNode}
    {env : Environment} {fns : List (String × ASTNode)} {r : ExecRes}
    (h : execute (n + 1) (ASTNode.PrintStatement e) env fns = some r) :
    ∃ er, evaluate n e env fns = some er ∧
      r = ⟨er.env, er.fns, er.out ++ [renderLine er.value], er.err⟩ := by
  simp only [execute] at h
  split at h
  · exact absurd h (by simp)
  · rename_i er he
    cases h
    exact ⟨er, he, rfl⟩

/-- Executing an if-statement returns the caller's environment unchanged:
the branch runs in a fresh scope built over a copy. -/
theorem execute_if_env {fuel : Nat} {c : ASTNode} {t : List ASTNode}
    {el : Option (List ASTNode)} {env : Environment}
    {fns : List (String × ASTNode)} {r : ExecRes}
    (h : execute fuel (ASTNode.IfStatement c t el) env fns = some r) :
    r.env = env := by
  cases fuel with
  | zero => simp [execute] at h
  | succ n =>
    simp only [execute] at h
    split at h
    · exact absurd h (by simp)
    · rename_i rc hc
      have hce := evaluate_env n c env fns rc hc
      split at h
      · split at h
        · exact absurd h (by simp)
        · cases h; exact hce
      · split at h
        · split at h
          · exact absurd h (by simp)
          · cases h; exact hce
        · cases h; exact hce

/-- Inverting an if-statement whose condition is a truthy literal. -/
theorem execute_if_lit_inv {n : Nat} {cv : ASTNode} {t : List ASTNode}
    {el : Option (List ASTNode)} {env : Environment}
    {fns : List (String × ASTNode)} {r : ExecRes}
    (hcv : isValue cv = true) (htr : isTruthy cv = true)
    (h : execute (n + 1) (ASTNode.IfStatement cv t el) env fns = some r) :
    ∃ br, execList n t (Environment.new (some env)) fns = some br ∧
      r = ⟨env, br.fns, br.out, br.err⟩ := by
  cases n with
  | zero => simp [execute, evaluate] at h
  | succ p =>
    rw [show p + 1 + 1 = (p + 1) + 1 from rfl] at h
    simp only [execute, evaluate_value_self p cv env fns hcv, htr, if_true] at h
    split at h
    · exact absurd h (by simp)
    · rename_i br hb
      cases h
      exact ⟨br, hb, by simp⟩

/-- An identifier bound in the chain evaluates to its binding. -/
theorem evaluate_identifier {n : Nat} {x : String} {v : ASTNode}
    {env : Environment} {fns : List (String × ASTNode)}
    (hg : env.get x = some v) :
    evaluate (n + 1) (ASTNode.Identifier x) env fns = some ⟨v, env, fns, [], []⟩ := by
  simp only [evaluate, hg]

/-! ### Parser-divergence lemma: an unclosed block never finishes -/

/-- `parse_block` facing the end-marker: `parse_statement` returns an empty
`Program` node without consuming the end-marker, so the block loop runs
forever — in the fuel model, no amount of fuel completes it. -/
theorem parseBlock_eof (fuel : Nat) : parseBlock fuel [Token.EOF] = none := by
  induction fuel with
  | zero => rfl
  | succ n ih =>
    cases n with
    | zero => rfl
    | succ m =>
      rw [parseBlock]
      · simp only [parseStatement, pbind]
        rw [ih]
      · simp
      · simp

/-- Mixed string/number operands with an operator other than `+` hit the
unsupported-operator arm. -/
theorem binOp_str_num_ne_plus (s : String) (q : Rat) (op : Token)
    (hop : op ≠ Token.Plus) :
    binOp (.StringLiteral s) op (.NumberLiteral q) =
      (.NumberLiteral 0, ["Error: Unsupported operator for string and number"]) := by
  cases op <;> simp_all [binOp]

/-- Mixed number/string operands with an operator other than `+` hit the
unsupported-operator arm. -/
theorem binOp_num_str_ne_plus (q : Rat) (s : String) (op : Token)
    (hop : op ≠ Token.Plus) :
    binOp (.NumberLiteral q) op (.StringLiteral s) =
      (.NumberLiteral 0, ["Error: Unsupported operator for number and string"]) := by
  cases op <;> simp_all [binOp]

/-! ### The claims -/

/-- **C1**: Executing an if-statement leaves the caller's environment —
every binding of it — unchanged: the taken branch runs in a scope whose
enclosing link is a full copy of the current scope, so assignments inside
it never reach the caller.  Consequently every program of the shape
`x = v1; if (c) { x = v2; } print x;` with literal values and a truthy
literal condition prints `v1`. -/
theorem claim1 :
    (∀ fuel c t e env fns r,
      execute fuel (ASTNode.IfStatement c t e) env fns = some r → r.env = env) ∧
    (∀ fuel x v1 v2 cv env fns r,
      isValue v1 = true → isValue v2 = true → isValue cv = true →
      isTruthy cv = true →
      execList fuel
        [ASTNode.VariableAssignment x v1,
         ASTNode.IfStatement cv [ASTNode.VariableAssignment x v2] none,
         ASTNode.PrintStatement (ASTNode.Identifier x)] env fns = some r →
      r.out = [renderLine v1]) := by
  constructor
  · intro fuel c t e env fns r h
    exact execute_if_env h
  · intro fuel x v1 v2 cv env fns r hv1 hv2 hcv htr h
    cases fuel with
    | zero => simp [execList] at h
    | succ n =>
      obtain ⟨r1, r2, h1, h2, hr⟩ := execList_cons_inv h
      cases n with
      | zero => simp [execute] at h1
      | succ m =>
        obtain ⟨er, he, hr1⟩ := execute_assign_inv h1
        cases m with
        | zero => simp [evaluate] at he
        | succ k =>
          rw [evaluate_value_self k v1 env fns hv1] at he
          cases he
          subst hr1
          obtain ⟨rif, r3, hif, h3, hr2⟩ := execList_cons_inv h2
          obtain ⟨br, hbr, hrif⟩ := execute_if_lit_inv hcv htr hif
          cases k with
          | zero => simp [execList] at hbr
          | succ j =>
            obtain ⟨rA, rN, hA, hN, hbr2⟩ := execList_cons_inv hbr
            cases j with
            | zero => simp [execute] at hA
            | succ i =>
              obtain ⟨erA, heA, hrA⟩ := execute_assign_inv hA
              cases i with
              | zero => simp [evaluate] at heA
              | succ w =>
                rw [evaluate_value_self w v2 _ _ hv2] at heA
                cases heA
                have hrN := execList_nil_inv hN
                subst hrA hrN hbr2 hrif
                obtain ⟨rp, rn2, hp, hnil, hr3⟩ := execList_cons_inv h3
                obtain ⟨ep, hep, hrp⟩ := execute_print_inv hp
                have hg : (Environment.assignOrDefine env x v1).get x = some v1 :=
                  Environment.get_assignOrDefine_self env x v1
                rw [evaluate_identifier hg] at hep
                cases hep
                have hrn2 := execList_nil_inv hnil
                subst hrp hrn2 hr3 hr2 hr
                simp

/-- Witness for C1 on the spec's own scenario
`x = 1; if (1) { x = 2; } print x;`: the output is the single line `1`. -/
theorem claim1_witness :
    ∃ r, execList 10
        [ASTNode.VariableAssignment "x" (ASTNode.NumberLiteral 1),
         ASTNode.IfStatement (ASTNode.NumberLiteral 1)
           [ASTNode.VariableAssignment "x" (ASTNode.NumberLiteral 2)] none,
         ASTNode.PrintStatement (ASTNode.Identifier "x")]
        (Environment.top []) [] = some r ∧ r.out = ["1"] := by
  have h : execList 10
      [ASTNode.VariableAssignment "x" (ASTNode.NumberLiteral 1),
       ASTNode.IfStatement (ASTNode.NumberLiteral 1)
         [ASTNode.VariableAssignment "x" (ASTNode.NumberLiteral 2)] none,
       ASTNode.PrintStatement (ASTNode.Identifier "x")]
      (Environment.top []) [] =
      some ⟨Environment.top [("x", ASTNode.NumberLiteral 1)], [], ["1"], []⟩ := rfl
  have hout := claim1.2 10 "x" (ASTNode.NumberLiteral 1) (ASTNode.NumberLiteral 2)
    (ASTNode.NumberLiteral 1) (Environment.top []) [] _ (by decide) (by decide)
    (by decide) (by decide) h
  exact ⟨_, h, hout.trans (by decide)⟩

/-- **C3**: A call to a declared function with matching argument count
always evaluates to the number 0 regardless of the body, and the pipeline
on `func f() { } y = f(); print y;` prints `0`. -/
theorem claim3 :
    (∀ fuel name args env fns fname params body r,
      lookupAL fns name = some (ASTNode.FunctionDeclaration fname params body) →
      args.length = params.length →
      evaluate fuel (ASTNode.FunctionCall name args) env fns = some r →
      r.value = ASTNode.NumberLiteral 0) ∧
    (∃ ast, parse 20 (lex "func f() { } y = f(); print y;") = some (.ok ast) ∧
      (interpret 10 ast).map ExecRes.out = some ["0"]) := by
  constructor
  · intro fuel name args env fns fname params body r hlook hlen h
    cases fuel with
    | zero => simp [evaluate] at h
    | succ n =>
      simp only [evaluate, hlook] at h
      split at h
      · cases h; rfl
      · split at h
        · exact absurd h (by simp)
        · split at h
          · exact absurd h (by simp)
          · cases h; rfl
  · refine ⟨[ASTNode.FunctionDeclaration "f" [] [],
      ASTNode.VariableAssignment "y" (ASTNode.FunctionCall "f" []),
      ASTNode.PrintStatement (ASTNode.Identifier "y")], ?_, ?_⟩
    · rfl
    · rfl

/-- Witness for C3: a declared zero-parameter function called with zero
arguments evaluates to the number 0. -/
theorem claim3_witness :
    ∃ r, evaluate 10 (ASTNode.FunctionCall "f" []) (Environment.top [])
        [("f", ASTNode.FunctionDeclaration "f" [] [])] = some r ∧
      r.value = ASTNode.NumberLiteral 0 := by
  have h : evaluate 10 (ASTNode.FunctionCall "f" []) (Environment.top [])
      [("f", ASTNode.FunctionDeclaration "f" [] [])] =
      some ⟨ASTNode.NumberLiteral 0, Environment.top [],
        [("f", ASTNode.FunctionDeclaration "f" [] [])], [], []⟩ := rfl
  exact ⟨_, h, claim3.1 10 "f" [] (Environment.top [])
    [("f", ASTNode.FunctionDeclaration "f" [] [])] "f" [] [] _ rfl rfl h⟩

/-- **C4**: The variable-assignment statement evaluates the right-hand
side and then updates the binding exactly as the spec words it (nearest
defining scope, innermost first; otherwise a fresh binding in the current
innermost scope): the code's assign-then-define combination coincides with
the spec-side `assignSpec`. -/
theorem claim4 :
    (∀ env n v, Environment.assignOrDefine env n v = assignSpec env n v) ∧
    (∀ fuel x e env fns er,
      evaluate fuel e env fns = some er →
      execute (fuel + 1) (ASTNode.VariableAssignment x e) env fns =
        some ⟨assignSpec er.env x er.value, er.fns, er.out, er.err⟩) := by
  constructor
  · exact fun env n v => assignOrDefine_eq_assignSpec env n v
  · intro fuel x e env fns er he
    simp only [execute, he, assignOrDefine_eq_assignSpec]

/-- Witness for C4: assigning to a name defined only in the enclosing
scope updates that enclosing scope (per `assignSpec`), and the statement
form computes exactly that. -/
theorem claim4_witness :
    execute 6 (ASTNode.VariableAssignment "x" (ASTNode.NumberLiteral 2))
        (Environment.inner [] (Environment.top [("x", ASTNode.NumberLiteral 1)])) [] =
      some ⟨assignSpec (Environment.inner [] (Environment.top [("x", ASTNode.NumberLiteral 1)]))
        "x" (ASTNode.NumberLiteral 2), [], [], []⟩ :=
  claim4.2 5 "x" (ASTNode.NumberLiteral 2)
    (Environment.inner [] (Environment.top [("x", ASTNode.NumberLiteral 1)])) []
    ⟨ASTNode.NumberLiteral 2,
      Environment.inner [] (Environment.top [("x", ASTNode.NumberLiteral 1)]), [], [], []⟩
    rfl

/-- **C10**: Evaluating an expression never changes the caller's
environment chain (`evaluate` only reads it); the function table, by
contrast, can change — calling a function whose body declares another
function grows the table. -/
theorem claim10 :
    (∀ fuel e env fns r, evaluate fuel e env fns = some r → r.env = env) ∧
    (∃ r, evaluate 10 (ASTNode.FunctionCall "f" []) (Environment.top [])
        [("f", ASTNode.FunctionDeclaration "f" [] [ASTNode.FunctionDeclaration "g" [] []])]
        = some r ∧
      r.env = Environment.top [] ∧
      r.fns ≠ [("f", ASTNode.FunctionDeclaration "f" [] [ASTNode.FunctionDeclaration "g" [] []])]) := by
  constructor
  · exact fun fuel e env fns r h => evaluate_env fuel e env fns r h
  · refine ⟨⟨ASTNode.NumberLiteral 0, Environment.top [],
      [("f", ASTNode.FunctionDeclaration "f" [] [ASTNode.FunctionDeclaration "g" [] []]),
       ("g", ASTNode.FunctionDeclaration "g" [] [])], [], []⟩, rfl, rfl, ?_⟩
    intro hcontra
    have := congrArg List.length hcontra
    simp at this

/-- Witness for C10: a function-call expression (the only expression that
executes statements) hands back the environment it was given. -/
theorem claim10_witness :
    ∃ r, evaluate 5 (ASTNode.Identifier "x")
        (Environment.top [("x", ASTNode.NumberLiteral 7)]) [] = some r ∧
      r.env = Environment.top [("x", ASTNode.NumberLiteral 7)] := by
  have h : evaluate 5 (ASTNode.Identifier "x")
      (Environment.top [("x", ASTNode.NumberLiteral 7)]) [] =
      some ⟨ASTNode.NumberLiteral 7,
        Environment.top [("x", ASTNode.NumberLiteral 7)], [], [], []⟩ := rfl
  exact ⟨_, h, claim10.1 5 (ASTNode.Identifier "x")
    (Environment.top [("x", ASTNode.NumberLiteral 7)]) [] _ h⟩

/-- **C5**: Every evaluate/execute-time fault — undefined variable,
undefined function, argument-count mismatch, unsupported operator/operand
combination — yields the sentinel number 0 with exactly one stderr line
and nothing on stdout, leaves environment and function table unchanged,
and returns normally (a `some` result), so the surrounding statement and
all later statements keep running. -/
theorem claim5 :
    (∀ fuel x env fns, Environment.get env x = none →
      evaluate (fuel + 1) (ASTNode.Identifier x) env fns =
        some ⟨ASTNode.NumberLiteral 0, env, fns, [], [undefinedVarMsg x]⟩) ∧
    (∀ fuel f args env fns, lookupAL fns f = none →
      evaluate (fuel + 1) (ASTNode.FunctionCall f args) env fns =
        some ⟨ASTNode.NumberLiteral 0, env, fns, [], [undefinedFnMsg f]⟩) ∧
    (∀ fuel f args env fns g params body,
      lookupAL fns f = some (ASTNode.FunctionDeclaration g params body) →
      args.length ≠ params.length →
      evaluate (fuel + 1) (ASTNode.FunctionCall f args) env fns =
        some ⟨ASTNode.NumberLiteral 0, env, fns, [], [arityMsg f]⟩) ∧
    (∀ fuel lv op rv env fns msg,
      isValue lv = true → isValue rv = true →
      (binOp lv op rv).2 = [msg] →
      evaluate (fuel + 2) (ASTNode.BinaryExpression lv op rv) env fns =
        some ⟨ASTNode.NumberLiteral 0, env, fns, [], [msg]⟩) ∧
    (∀ fuel f args env fns, lookupAL fns f = none →
      execute (fuel + 1) (ASTNode.FunctionCall f args) env fns =
        some ⟨env, fns, [], [undefinedFnMsg f]⟩) := by
  refine ⟨fun fuel x env fns hg => ?_, fun fuel f args env fns hl => ?_,
    fun fuel f args env fns g params body hl hne => ?_,
    fun fuel lv op rv env fns msg hlv hrv herr => ?_,
    fun fuel f args env fns hl => ?_⟩
  · simp only [evaluate, hg]
  · simp only [evaluate, hl]
  · simp only [evaluate, hl]
    rw [if_pos hne]
  · have h0 : (binOp lv op rv).1 = ASTNode.NumberLiteral 0 := by
      rcases binOp_error_or_silent lv op rv with h0 | hsil
      · exact h0
      · rw [herr] at hsil; simp at hsil
    cases lv <;> simp only [isValue] at hlv <;>
      cases rv <;> simp only [isValue] at hrv <;>
      simp_all [evaluate]
  · simp only [execute, hl]

/-- Witness for C5: all five fault kinds at concrete inputs. -/
theorem claim5_witness :
    evaluate 3 (ASTNode.Identifier "u") (Environment.top []) [] =
      some ⟨ASTNode.NumberLiteral 0, Environment.top [], [], [], [undefinedVarMsg "u"]⟩ ∧
    evaluate 3 (ASTNode.FunctionCall "g" []) (Environment.top []) [] =
      some ⟨ASTNode.NumberLiteral 0, Environment.top [], [], [], [undefinedFnMsg "g"]⟩ ∧
    evaluate 3 (ASTNode.FunctionCall "f" [ASTNode.NumberLiteral 1]) (Environment.top [])
        [("f", ASTNode.FunctionDeclaration "f" [] [])] =
      some ⟨ASTNode.NumberLiteral 0, Environment.top [],
        [("f", ASTNode.FunctionDeclaration "f" [] [])], [], [arityMsg "f"]⟩ ∧
    evaluate 3 (ASTNode.BinaryExpression (ASTNode.StringLiteral "a") Token.Minus
        (ASTNode.StringLiteral "b")) (Environment.top []) [] =
      some ⟨ASTNode.NumberLiteral 0, Environment.top [], [], [],
        ["Error: Unsupported operator for strings"]⟩ ∧
    execute 3 (ASTNode.FunctionCall "g" []) (Environment.top []) [] =
      some ⟨Environment.top [], [], [], [undefinedFnMsg "g"]⟩ :=
  ⟨claim5.1 2 "u" (Environment.top []) [] rfl,
   claim5.2.1 2 "g" [] (Environment.top []) [] rfl,
   claim5.2.2.1 2 "f" [ASTNode.NumberLiteral 1] (Environment.top [])
     [("f", ASTNode.FunctionDeclaration "f" [] [])] "f" [] [] rfl (by decide),
   claim5.2.2.2.1 1 (ASTNode.StringLiteral "a") Token.Minus (ASTNode.StringLiteral "b")
     (Environment.top []) [] "Error: Unsupported operator for strings"
     (by decide) (by decide) (by decide),
   claim5.2.2.2.2 2 "g" [] (Environment.top []) [] rfl⟩

/-- **C6**: On one string and one number operand (either order) `+`
concatenates after rendering the number with its default decimal text, and
every other operator on such a mixed pair is an unsupported-operator error
yielding the number 0; the pipeline on `print 1 + "x";` prints `1x`. -/
theorem claim6 :
    (∀ fuel l r s q env fns env1 fns1 o1 e1 env2 fns2 o2 e2,
      evaluate fuel l env fns = some ⟨ASTNode.StringLiteral s, env1, fns1, o1, e1⟩ →
      evaluate fuel r env1 fns1 = some ⟨ASTNode.NumberLiteral q, env2, fns2, o2, e2⟩ →
      evaluate (fuel + 1) (ASTNode.BinaryExpression l Token.Plus r) env fns =
        some ⟨ASTNode.StringLiteral (s ++ numToString q), env2, fns2,
          o1 ++ o2, e1 ++ e2⟩) ∧
    (∀ fuel l r q s env fns env1 fns1 o1 e1 env2 fns2 o2 e2,
      evaluate fuel l env fns = some ⟨ASTNode.NumberLiteral q, env1, fns1, o1, e1⟩ →
      evaluate fuel r env1 fns1 = some ⟨ASTNode.StringLiteral s, env2, fns2, o2, e2⟩ →
      evaluate (fuel + 1) (ASTNode.BinaryExpression l Token.Plus r) env fns =
        some ⟨ASTNode.StringLiteral (numToString q ++ s), env2, fns2,
          o1 ++ o2, e1 ++ e2⟩) ∧
    (∀ fuel op l r s q env fns env1 fns1 o1 e1 env2 fns2 o2 e2,
      op ≠ Token.Plus →
      evaluate fuel l env fns = some ⟨ASTNode.StringLiteral s, env1, fns1, o1, e1⟩ →
      evaluate fuel r env1 fns1 = some ⟨ASTNode.NumberLiteral q, env2, fns2, o2, e2⟩ →
      evaluate (fuel + 1) (ASTNode.BinaryExpression l op r) env fns =
        some ⟨ASTNode.NumberLiteral 0, env2, fns2, o1 ++ o2,
          e1 ++ e2 ++ ["Error: Unsupported operator for string and number"]⟩) ∧
    (∀ fuel op l r q s env fns env1 fns1 o1 e1 env2 fns2 o2 e2,
      op ≠ Token.Plus →
      evaluate fuel l env fns = some ⟨ASTNode.NumberLiteral q, env1, fns1, o1, e1⟩ →
      evaluate fuel r env1 fns1 = some ⟨ASTNode.StringLiteral s, env2, fns2, o2, e2⟩ →
      evaluate (fuel + 1) (ASTNode.BinaryExpression l op r) env fns =
        some ⟨ASTNode.NumberLiteral 0, env2, fns2, o1 ++ o2,
          e1 ++ e2 ++ ["Error: Unsupported operator for number and string"]⟩) ∧
    (∃ ast, parse 20 (lex "print 1 + \"x\";") = some (.ok ast) ∧
      (interpret 10 ast).map ExecRes.out = some ["1x"]) := by
  refine ⟨fun fuel l r s q env fns env1 fns1 o1 e1 env2 fns2 o2 e2 hL hR => ?_,
    fun fuel l r q s env fns env1 fns1 o1 e1 env2 fns2 o2 e2 hL hR => ?_,
    fun fuel op l r s q env fns env1 fns1 o1 e1 env2 fns2 o2 e2 hop hL hR => ?_,
    fun fuel op l r q s env fns env1 fns1 o1 e1 env2 fns2 o2 e2 hop hL hR => ?_,
    ?_⟩
  · simp [evaluate, hL, hR, binOp]
  · simp [evaluate, hL, hR, binOp]
  · simp [evaluate, hL, hR, binOp_str_num_ne_plus s q op hop]
  · simp [evaluate, hL, hR, binOp_num_str_ne_plus q s op hop]
  · exact ⟨[ASTNode.PrintStatement (ASTNode.BinaryExpression
      (ASTNode.NumberLiteral 1) Token.Plus (ASTNode.StringLiteral "x"))], rfl, rfl⟩

/-- Witness for C6: `"a" + 2` is `"a2"`, `1 + "x"` is `"1x"`, and `-` on a
mixed pair errors to 0. -/
theorem claim6_witness :
    evaluate 2 (ASTNode.BinaryExpression (ASTNode.StringLiteral "a") Token.Plus
        (ASTNode.NumberLiteral 2)) (Environment.top []) [] =
      some ⟨ASTNode.StringLiteral "a2", Environment.top [], [], [], []⟩ ∧
    evaluate 2 (ASTNode.BinaryExpression (ASTNode.NumberLiteral 1) Token.Plus
        (ASTNode.StringLiteral "x")) (Environment.top []) [] =
      some ⟨ASTNode.StringLiteral "1x", Environment.top [], [], [], []⟩ ∧
    evaluate 2 (ASTNode.BinaryExpression (ASTNode.StringLiteral "a") Token.Minus
        (ASTNode.NumberLiteral 2)) (Environment.top []) [] =
      some ⟨ASTNode.NumberLiteral 0, Environment.top [], [], [],
        ["Error: Unsupported operator for string and number"]⟩ :=
  ⟨(claim6.1 1 (ASTNode.StringLiteral "a") (ASTNode.NumberLiteral 2) "a" 2
      (Environment.top []) [] (Environment.top []) [] [] [] (Environment.top [])
      [] [] [] rfl rfl).trans (by rfl),
   (claim6.2.1 1 (ASTNode.NumberLiteral 1) (ASTNode.StringLiteral "x") 1 "x"
      (Environment.top []) [] (Environment.top []) [] [] [] (Environment.top [])
      [] [] [] rfl rfl).trans (by rfl),
   (claim6.2.2.1 1 Token.Minus (ASTNode.StringLiteral "a") (ASTNode.NumberLiteral 2)
      "a" 2 (Environment.top []) [] (Environment.top []) [] [] [] (Environment.top [])
      [] [] [] (by simp) rfl rfl).trans (by rfl)⟩

/-- **C7**: With every binding in every scope a literal value, `evaluate`
returns a literal value for every expression, statement execution
preserves the binding invariant, and the print statement's output line is
`renderLine` of a literal value — so its placeholder arm for other node
kinds can never be taken. -/
theorem claim7 :
    (∀ fuel e env fns r, envWF env = true →
      evaluate fuel e env fns = some r → isValue r.value = true) ∧
    (∀ fuel s env fns r, envWF env = true →
      execute fuel s env fns = some r → envWF r.env = true) ∧
    (∀ fuel e env fns r, envWF env = true →
      execute (fuel + 1) (ASTNode.PrintStatement e) env fns = some r →
      ∃ er, evaluate fuel e env fns = some er ∧ isValue er.value = true ∧
        r.out = er.out ++ [renderLine er.value]) := by
  refine ⟨fun fuel e env fns r hwf h => evaluate_isValue fuel e env fns r hwf h,
    fun fuel s env fns r hwf h => execute_envWF fuel s env fns r hwf h,
    fun fuel e env fns r hwf h => ?_⟩
  obtain ⟨er, he, hr⟩ := execute_print_inv h
  exact ⟨er, he, evaluate_isValue fuel e env fns er hwf he, by rw [hr]⟩

/-- Witness for C7 on a two-scope chain of literal bindings. -/
theorem claim7_witness :
    (∃ r, evaluate 3 (ASTNode.Identifier "x")
        (Environment.inner [("y", ASTNode.NumberLiteral 4)]
          (Environment.top [("x", ASTNode.StringLiteral "v")])) [] = some r ∧
      isValue r.value = true) ∧
    (∃ r, execute 3 (ASTNode.VariableAssignment "z" (ASTNode.NumberLiteral 5))
        (Environment.inner [("y", ASTNode.NumberLiteral 4)]
          (Environment.top [("x", ASTNode.StringLiteral "v")])) [] = some r ∧
      envWF r.env = true) ∧
    (∃ r, execute 3 (ASTNode.PrintStatement (ASTNode.Identifier "x"))
        (Environment.inner [("y", ASTNode.NumberLiteral 4)]
          (Environment.top [("x", ASTNode.StringLiteral "v")])) [] = some r ∧
      r.out = ["v"]) := by
  have henv : envWF (Environment.inner [("y", ASTNode.NumberLiteral 4)]
      (Environment.top [("x", ASTNode.StringLiteral "v")])) = true := by decide
  refine ⟨⟨⟨ASTNode.StringLiteral "v",
      Environment.inner [("y", ASTNode.NumberLiteral 4)]
        (Environment.top [("x", ASTNode.StringLiteral "v")]), [], [], []⟩, rfl,
      claim7.1 3 (ASTNode.Identifier "x")
        (Environment.inner [("y", ASTNode.NumberLiteral 4)]
          (Environment.top [("x", ASTNode.StringLiteral "v")])) []
        ⟨ASTNode.StringLiteral "v",
          Environment.inner [("y", ASTNode.NumberLiteral 4)]
            (Environment.top [("x", ASTNode.StringLiteral "v")]), [], [], []⟩
        henv rfl⟩,
    ⟨⟨Environment.inner [("y", ASTNode.NumberLiteral 4), ("z", ASTNode.NumberLiteral 5)]
        (Environment.top [("x", ASTNode.StringLiteral "v")]), [], [], []⟩, rfl,
      claim7.2.1 3 (ASTNode.VariableAssignment "z" (ASTNode.NumberLiteral 5))
        (Environment.inner [("y", ASTNode.NumberLiteral 4)]
          (Environment.top [("x", ASTNode.StringLiteral "v")])) []
        ⟨Environment.inner [("y", ASTNode.NumberLiteral 4), ("z", ASTNode.NumberLiteral 5)]
          (Environment.top [("x", ASTNode.StringLiteral "v")]), [], [], []⟩
        henv rfl⟩, ?_⟩
  obtain ⟨er, he, hv, hout⟩ := claim7.2.2 2 (ASTNode.Identifier "x")
    (Environment.inner [("y", ASTNode.NumberLiteral 4)]
      (Environment.top [("x", ASTNode.StringLiteral "v")])) []
    ⟨Environment.inner [("y", ASTNode.NumberLiteral 4)]
      (Environment.top [("x", ASTNode.StringLiteral "v")]), [], ["v"], []⟩
    henv rfl
  refine ⟨⟨Environment.inner [("y", ASTNode.NumberLiteral 4)]
      (Environment.top [("x", ASTNode.StringLiteral "v")]), [], ["v"], []⟩, rfl, ?_⟩
  have her : er = ⟨ASTNode.StringLiteral "v",
      Environment.inner [("y", ASTNode.NumberLiteral 4)]
        (Environment.top [("x", ASTNode.StringLiteral "v")]), [], [], []⟩ :=
    Option.some.inj (he.symm.trans rfl)
  rw [hout, her]
  rfl

/-- **C8**: For every source string the scanner produces a non-empty token
sequence whose last token is the end-marker, and the end-marker occurs
exactly once. -/
theorem claim8 (s : String) :
    lex s ≠ [] ∧ (lex s).getLast? = some Token.EOF ∧
      (lex s).count Token.EOF = 1 := by
  obtain ⟨ts, h1, h2⟩ := lexChars_decomp (s.data.length + 1) s.data
  unfold lex
  rw [h1]
  refine ⟨by simp, ?_, ?_⟩
  · rw [List.getLast?_concat]
  · rw [List.count_append]
    simp [List.count_eq_zero.mpr h2]

/-- **C9**: A maximal digits-and-dots run that fails to parse as a number
(for example one with several dots) becomes a number-literal token with
value 0 — the scanner signals no error and just continues; concretely,
`1.2.3` scans to that single zero-valued token. -/
theorem claim9 :
    (∀ fuel c cs, c.isDigit = true →
      parseNumeral ((c :: cs).takeWhile fun ch => ch.isDigit || ch = '.') = none →
      lexChars (fuel + 1) (c :: cs) =
        Token.NumberLiteral 0 ::
          lexChars fuel ((c :: cs).dropWhile fun ch => ch.isDigit || ch = '.')) ∧
    lex "1.2.3" = [Token.NumberLiteral 0, Token.EOF] := by
  constructor
  · intro fuel c cs hd hp
    rw [lexChars_number_branch fuel c cs hd]
    simp [collectNumber, hp]
  · rfl

/-- Witness for C9 at the numeral `1.2.3`. -/
theorem claim9_witness :
    lexChars 6 ['1', '.', '2', '.', '3'] =
      Token.NumberLiteral 0 ::
        lexChars 5 ((['1', '.', '2', '.', '3']).dropWhile fun ch =>
          ch.isDigit || ch = '.') :=
  claim9.1 5 '1' ['.', '2', '.', '3'] (by decide) (by decide)

/-- **C2** (refuting the spec's termination contract): on the unclosed
block `if (1) {` the parser does not return a parse error — it loops
forever.  `parse_statement` answers the end-marker with an empty `Program`
node without consuming it, so `parse_block`'s loop makes no progress; in
the fuel model no amount of fuel completes the parse. -/
theorem claim2 : ∀ fuel, parse fuel (lex "if (1) \x7b") = none := by
  intro n
  have hlex : lex "if (1) \x7b" =
      [Token.If, Token.LeftParen, Token.NumberLiteral 1, Token.RightParen,
       Token.LeftBrace, Token.EOF] := rfl
  rw [hlex]
  rcases Nat.lt_or_ge n 10 with h | h
  · interval_cases n <;> rfl
  · obtain ⟨k, rfl⟩ : ∃ k, n = k + 10 := ⟨n - 10, by omega⟩
    have hif : parseIfStatement (k + 8)
        [Token.If, Token.LeftParen, Token.NumberLiteral 1, Token.RightParen,
         Token.LeftBrace, Token.EOF] = none := by
      obtain ⟨F, hF⟩ : ∃ F, parseIfStatement (k + 8)
          [Token.If, Token.LeftParen, Token.NumberLiteral 1, Token.RightParen,
           Token.LeftBrace, Token.EOF] =
          pbind (parseBlock (k + 7) [Token.EOF]) F := ⟨_, rfl⟩
      rw [hF, parseBlock_eof]
      rfl
    have hstmt : parseStatement (k + 9)
        [Token.If, Token.LeftParen, Token.NumberLiteral 1, Token.RightParen,
         Token.LeftBrace, Token.EOF] = none := by
      have hd : parseStatement (k + 9)
          [Token.If, Token.LeftParen, Token.NumberLiteral 1, Token.RightParen,
           Token.LeftBrace, Token.EOF] =
          parseIfStatement (k + 8)
          [Token.If, Token.LeftParen, Token.NumberLiteral 1, Token.RightParen,
           Token.LeftBrace, Token.EOF] := rfl
      rw [hd, hif]
    have htop : parseTop (k + 10)
        [Token.If, Token.LeftParen, Token.NumberLiteral 1, Token.RightParen,
         Token.LeftBrace, Token.EOF] = none := by
      obtain ⟨G, hG⟩ : ∃ G, parseTop (k + 10)
          [Token.If, Token.LeftParen, Token.NumberLiteral 1, Token.RightParen,
           Token.LeftBrace, Token.EOF] =
          pbind (parseStatement (k + 9)
            [Token.If, Token.LeftParen, Token.NumberLiteral 1, Token.RightParen,
             Token.LeftBrace, Token.EOF]) G := ⟨_, rfl⟩
      rw [hG, hstmt]
      rfl
    simp only [parse, htop]

end Juul
